import Mathlib

/-!
Verification development for the Kairos adaptive focus-duration recommender.

The definitions below are a shallow embedding of the recommender core:
`src/services/contextualBandits.ts`, `src/services/rl/index.ts`,
`src/services/sessionCompletionService.ts`, the reward function
`calculateReward` (services/recommendations) and the constants in
`src/constants/timer.ts`.

Modelling conventions:
* JavaScript numbers are embedded as rationals (`ℚ`).  Where IEEE special
  values (NaN, ±Infinity) are observable - the reward pipeline and the
  `updateModel` guard - values are embedded as `JSNum`, a rational extended
  with the three special values, and the arithmetic operations mirror the
  IEEE / JavaScript semantics on them.
* JavaScript objects keyed by strings (the three persisted tables) are
  embedded as association lists in insertion order; objects keyed by
  integer-like numbers (the per-context arm table) are embedded as
  association lists kept in ascending key order, matching the enumeration
  order JavaScript guarantees for integer-like keys.
* `AsyncStorage` persistence is whole-table and synchronous from the
  recommender's point of view, so the storage layer is embedded as a state
  record threaded through each operation.
* `Math.random()` and the Beta sampler (Jöhnk's generator uses real-valued
  exponentials) are embedded as oracle parameters: `u` is the uniform draw
  used by the early-exploration branch, `sample` yields the per-arm
  Thompson draw.  Theorems quantify over these oracles.
-/

/-- JavaScript IEEE-754 double restricted to the values this program can
observe: a finite rational or one of NaN, +Infinity, -Infinity. -/
inductive JSNum where
  | nan : JSNum
  | posInf : JSNum
  | negInf : JSNum
  | fin : ℚ → JSNum
deriving DecidableEq, Repr

namespace JSNum

/-- JavaScript addition. -/
def add : JSNum → JSNum → JSNum
  | nan, _ => nan
  | _, nan => nan
  | posInf, negInf => nan
  | negInf, posInf => nan
  | posInf, _ => posInf
  | _, posInf => posInf
  | negInf, _ => negInf
  | _, negInf => negInf
  | fin a, fin b => fin (a + b)

/-- JavaScript negation. -/
def neg : JSNum → JSNum
  | nan => nan
  | posInf => negInf
  | negInf => posInf
  | fin a => fin (-a)

/-- JavaScript subtraction. -/
def sub (x y : JSNum) : JSNum := add x (neg y)

/-- JavaScript multiplication. -/
def mul : JSNum → JSNum → JSNum
  | nan, _ => nan
  | _, nan => nan
  | posInf, posInf => posInf
  | posInf, negInf => negInf
  | negInf, posInf => negInf
  | negInf, negInf => posInf
  | posInf, fin b => if 0 < b then posInf else if b < 0 then negInf else nan
  | fin a, posInf => if 0 < a then posInf else if a < 0 then negInf else nan
  | negInf, fin b => if 0 < b then negInf else if b < 0 then posInf else nan
  | fin a, negInf => if 0 < a then negInf else if a < 0 then posInf else nan
  | fin a, fin b => fin (a * b)

/-- JavaScript division (the cases the embedding can reach). -/
def div : JSNum → JSNum → JSNum
  | nan, _ => nan
  | _, nan => nan
  | posInf, posInf => nan
  | posInf, negInf => nan
  | negInf, posInf => nan
  | negInf, negInf => nan
  | posInf, fin b => if 0 ≤ b then posInf else negInf
  | negInf, fin b => if 0 ≤ b then negInf else posInf
  | fin _, posInf => fin 0
  | fin _, negInf => fin 0
  | fin a, fin b =>
      if b = 0 then (if 0 < a then posInf else if a < 0 then negInf else nan)
      else fin (a / b)

/-- JavaScript `Math.min` (NaN-propagating). -/
def min : JSNum → JSNum → JSNum
  | nan, _ => nan
  | _, nan => nan
  | negInf, _ => negInf
  | _, negInf => negInf
  | posInf, y => y
  | x, posInf => x
  | fin a, fin b => fin (Min.min a b)

/-- JavaScript `Math.max` (NaN-propagating). -/
def max : JSNum → JSNum → JSNum
  | nan, _ => nan
  | _, nan => nan
  | posInf, _ => posInf
  | _, posInf => posInf
  | negInf, y => y
  | x, negInf => x
  | fin a, fin b => fin (Max.max a b)

/-- JavaScript `>=` comparison; false whenever an operand is NaN. -/
def ge : JSNum → JSNum → Bool
  | nan, _ => false
  | _, nan => false
  | posInf, _ => true
  | _, posInf => false
  | _, negInf => true
  | negInf, _ => false
  | fin a, fin b => decide (b ≤ a)

/-- JavaScript `>` comparison; false whenever an operand is NaN. -/
def gt : JSNum → JSNum → Bool
  | nan, _ => false
  | _, nan => false
  | _, posInf => false
  | posInf, _ => true
  | negInf, _ => false
  | _, negInf => true
  | fin a, fin b => decide (b < a)

/-- JavaScript `<` comparison; false whenever an operand is NaN. -/
def lt (x y : JSNum) : Bool := gt y x

/-- JavaScript `isNaN`. -/
def isNaN : JSNum → Bool
  | nan => true
  | _ => false

end JSNum

/-! ### Association lists

JavaScript objects are embedded as association lists.  String-keyed tables
preserve insertion order (`setEntry` appends new keys); number-keyed arm
tables are kept in ascending key order (`setArm` inserts in order), which is
the enumeration order JavaScript guarantees for integer-like keys. -/

/-- First value stored under a key, if any. -/
def alookup {κ ν : Type} [DecidableEq κ] : List (κ × ν) → κ → Option ν
  | [], _ => none
  | (k, v) :: t, k₀ => if k = k₀ then some v else alookup t k₀

/-- Overwrite the value under a key, appending at the end if absent
(JavaScript property assignment on a string key). -/
def setEntry {κ ν : Type} [DecidableEq κ] : List (κ × ν) → κ → ν → List (κ × ν)
  | [], k₀, v₀ => [(k₀, v₀)]
  | (k, v) :: t, k₀, v₀ =>
      if k = k₀ then (k, v₀) :: t else (k, v) :: setEntry t k₀ v₀

/-- Overwrite the value under a numeric key, inserting in ascending key
order if absent (JavaScript property assignment on an integer-like key). -/
def setArm {ν : Type} : List (ℚ × ν) → ℚ → ν → List (ℚ × ν)
  | [], k₀, v₀ => [(k₀, v₀)]
  | (k, v) :: t, k₀, v₀ =>
      if k = k₀ then (k, v₀) :: t
      else if k₀ < k then (k₀, v₀) :: (k, v) :: t
      else (k, v) :: setArm t k₀ v₀

/-- Keep the first occurrence of each element (`new Set([...])` order). -/
def dedupFirst : List ℚ → List ℚ
  | [] => []
  | h :: t => h :: dedupFirst (t.filter (fun x => x ≠ h))
termination_by l => l.length
decreasing_by
  simp only [List.length_cons]
  exact Nat.lt_succ_of_le (List.length_filter_le _ _)

/-- Insert into an ascending list. -/
def insertAsc (x : ℚ) : List ℚ → List ℚ
  | [] => [x]
  | h :: t => if x ≤ h then x :: h :: t else h :: insertAsc x t

/-- Ascending numeric sort (`.sort((a, b) => a - b)`). -/
def sortQ : List ℚ → List ℚ
  | [] => []
  | h :: t => insertAsc h (sortQ t)

/-- Smallest element of a list (`Math.min(...xs)`); the program only applies
this to non-empty lists, where JavaScript would return Infinity. -/
def listMin : List ℚ → ℚ
  | [] => 0
  | h :: t => t.foldl Min.min h

/-- Largest element of a list (`Math.max(...xs)`). -/
def listMax : List ℚ → ℚ
  | [] => 0
  | h :: t => t.foldl Max.max h

theorem alookup_setEntry_self {κ ν : Type} [DecidableEq κ]
    (l : List (κ × ν)) (k : κ) (v : ν) : alookup (setEntry l k v) k = some v := by
  induction l with
  | nil => simp [setEntry, alookup]
  | cons h t ih =>
      obtain ⟨k₁, v₁⟩ := h
      by_cases hk : k₁ = k <;> simp [setEntry, alookup, hk, ih]

theorem alookup_setEntry_ne {κ ν : Type} [DecidableEq κ]
    (l : List (κ × ν)) (k k₀ : κ) (v : ν) (h : k ≠ k₀) :
    alookup (setEntry l k v) k₀ = alookup l k₀ := by
  induction l with
  | nil => simp [setEntry, alookup, h]
  | cons hd t ih =>
      obtain ⟨k₁, v₁⟩ := hd
      by_cases hk : k₁ = k
      · subst hk; simp [setEntry, alookup, h]
      · simp [setEntry, alookup, hk, ih]

theorem alookup_setArm_self {ν : Type}
    (l : List (ℚ × ν)) (k : ℚ) (v : ν) : alookup (setArm l k v) k = some v := by
  induction l with
  | nil => simp [setArm, alookup]
  | cons h t ih =>
      obtain ⟨k₁, v₁⟩ := h
      by_cases hk : k₁ = k
      · simp [setArm, alookup, hk]
      · by_cases hlt : k < k₁ <;> simp [setArm, alookup, hk, hlt, ih]

theorem alookup_setArm_ne {ν : Type}
    (l : List (ℚ × ν)) (k k₀ : ℚ) (v : ν) (h : k ≠ k₀) :
    alookup (setArm l k v) k₀ = alookup l k₀ := by
  induction l with
  | nil => simp [setArm, alookup, h]
  | cons hd t ih =>
      obtain ⟨k₁, v₁⟩ := hd
      by_cases hk : k₁ = k
      · subst hk; simp [setArm, alookup, h]
      · by_cases hlt : k < k₁ <;> simp [setArm, alookup, hk, hlt, h, ih]

/-- Keys reachable after a `setArm` were present before or are the new key. -/
theorem alookup_setArm_isSome {ν : Type}
    (l : List (ℚ × ν)) (k a : ℚ) (v : ν)
    (h : (alookup (setArm l k v) a).isSome) :
    (alookup l a).isSome ∨ a = k := by
  by_cases hak : a = k
  · exact Or.inr hak
  · rw [alookup_setArm_ne l k a v (fun he => hak he.symm)] at h
    exact Or.inl h

theorem mem_insertAsc (x a : ℚ) (l : List ℚ) :
    a ∈ insertAsc x l ↔ a = x ∨ a ∈ l := by
  induction l with
  | nil => simp [insertAsc]
  | cons h t ih =>
      by_cases hle : x ≤ h
      · simp [insertAsc, hle]
      · simp [insertAsc, hle, ih]; tauto

theorem mem_sortQ (a : ℚ) (l : List ℚ) : a ∈ sortQ l ↔ a ∈ l := by
  induction l with
  | nil => simp [sortQ]
  | cons h t ih => simp [sortQ, mem_insertAsc, ih]

theorem mem_dedupFirst_aux (n : ℕ) :
    ∀ (l : List ℚ), l.length ≤ n → ∀ a, (a ∈ dedupFirst l ↔ a ∈ l) := by
  induction n with
  | zero =>
      intro l hl a
      match l with
      | [] => simp [dedupFirst]
      | h :: t => simp at hl
  | succ n ih =>
      intro l hl a
      match l with
      | [] => simp [dedupFirst]
      | h :: t =>
          have hlen : (t.filter (fun x => x ≠ h)).length ≤ n :=
            le_trans (List.length_filter_le _ _) (Nat.le_of_succ_le_succ hl)
          rw [dedupFirst]
          simp only [List.mem_cons, ih _ hlen a, List.mem_filter,
            decide_eq_true_eq, ne_eq]
          constructor
          · rintro (rfl | ⟨hm, _⟩)
            · exact Or.inl rfl
            · exact Or.inr hm
          · rintro (rfl | hm)
            · exact Or.inl rfl
            · by_cases hah : a = h
              · exact Or.inl hah
              · exact Or.inr ⟨hm, hah⟩

theorem mem_dedupFirst (a : ℚ) (l : List ℚ) : a ∈ dedupFirst l ↔ a ∈ l :=
  mem_dedupFirst_aux l.length l le_rfl a

theorem foldl_min_le_init : ∀ (l : List ℚ) (b : ℚ), l.foldl Min.min b ≤ b := by
  intro l
  induction l with
  | nil => simp
  | cons h t ih =>
      intro b
      simp only [List.foldl_cons]
      exact le_trans (ih _) (min_le_left _ _)

theorem foldl_min_le_mem :
    ∀ (l : List ℚ) (b a : ℚ), a ∈ l → l.foldl Min.min b ≤ a := by
  intro l
  induction l with
  | nil => intro b a h; cases h
  | cons h t ih =>
      intro b a hm
      simp only [List.foldl_cons]
      rcases List.mem_cons.mp hm with rfl | hm
      · exact le_trans (foldl_min_le_init t _) (min_le_right _ _)
      · exact ih _ a hm

theorem foldl_max_init_le : ∀ (l : List ℚ) (b : ℚ), b ≤ l.foldl Max.max b := by
  intro l
  induction l with
  | nil => simp
  | cons h t ih =>
      intro b
      simp only [List.foldl_cons]
      exact le_trans (le_max_left _ _) (ih _)

theorem foldl_max_mem_le :
    ∀ (l : List ℚ) (b a : ℚ), a ∈ l → a ≤ l.foldl Max.max b := by
  intro l
  induction l with
  | nil => intro b a h; cases h
  | cons h t ih =>
      intro b a hm
      simp only [List.foldl_cons]
      rcases List.mem_cons.mp hm with rfl | hm
      · exact le_trans (le_max_right _ _) (foldl_max_init_le t _)
      · exact ih _ a hm

theorem listMin_le_mem (l : List ℚ) (a : ℚ) (h : a ∈ l) : listMin l ≤ a := by
  match l with
  | [] => cases h
  | hd :: t =>
      simp only [listMin]
      rcases List.mem_cons.mp h with rfl | hm
      · exact foldl_min_le_init t a
      · exact foldl_min_le_mem t hd a hm

theorem mem_le_listMax (l : List ℚ) (a : ℚ) (h : a ∈ l) : a ≤ listMax l := by
  match l with
  | [] => cases h
  | hd :: t =>
      simp only [listMax]
      rcases List.mem_cons.mp h with rfl | hm
      · exact foldl_max_init_le t a
      · exact foldl_max_mem_le t hd a hm

/-! ### Domain types (src/services/contextualBandits.ts, @/types) -/

/-- Modelled from the spec: the `EnergyLevel` union from `@/types` is not in
the source tree; §3 of the spec fixes `energyLevel ∈ {low, mid, high, unset}`. -/
inductive EnergyLevel where
  | low : EnergyLevel
  | mid : EnergyLevel
  | high : EnergyLevel
  | unset : EnergyLevel
deriving DecidableEq, Repr

/-- String form of an energy level, as interpolated into context keys. -/
def EnergyLevel.str : EnergyLevel → String
  | .low => "low"
  | .mid => "mid"
  | .high => "high"
  | .unset => "unset"

/-- Context for recommendations (taskType + energyLevel). -/
structure Context where
  taskType : String
  energyLevel : EnergyLevel
deriving DecidableEq, Repr

inductive FocusZone where
  | short : FocusZone
  | long : FocusZone
deriving DecidableEq, Repr

/-- Zone data for a context. -/
structure ZoneData where
  zone : FocusZone
  confidence : ℚ
  selections : List ℚ
  transitionReady : Bool
deriving DecidableEq, Repr

inductive Trend where
  | growing : Trend
  | stable : Trend
  | declining : Trend
deriving DecidableEq, Repr

/-- One entry of `CapacityStats.recentSessions`. -/
structure SessionRec where
  selectedDuration : ℚ
  actualFocusTime : ℚ
  completed : Bool
  timestamp : ℚ
deriving DecidableEq, Repr

/-- Capacity stats for a context. -/
structure CapacityStats where
  recentSessions : List SessionRec
  averageCapacity : ℚ
  completionRate : ℚ
  trend : Trend
deriving DecidableEq, Repr

/-- Beta-distribution parameters for one arm. -/
structure ModelParameters where
  alpha : ℚ
  beta : ℚ
deriving DecidableEq, Repr

/-- Per-context arm table, ascending by arm. -/
abbrev ContextModel := List (ℚ × ModelParameters)

/-- `model` table: context key → arm → parameters. -/
abbrev ModelState := List (String × ContextModel)

/-- `zones` table. -/
abbrev ZoneState := List (String × ZoneData)

/-- `capacity` table. -/
abbrev CapacityState := List (String × CapacityStats)

inductive RecSource where
  | heuristic : RecSource
  | learned : RecSource
  | blended : RecSource
  | capacity : RecSource
deriving DecidableEq, Repr

inductive SkipReason where
  | skippedFocus : SkipReason
  | skippedBreak : SkipReason
  | none : SkipReason
deriving DecidableEq, Repr

inductive CompletionType where
  | completed : CompletionType
  | skippedFocus : CompletionType
  | skippedBreak : CompletionType
deriving DecidableEq, Repr

/-- Session row written by `createAndSaveSession`; the clock-derived string
fields (`timeOfDay`, `date`, `createdAt`), which the recommender never reads,
are omitted. -/
structure Session where
  taskType : String
  energyLevel : EnergyLevel
  recommendedDuration : ℚ
  recommendedBreak : ℚ
  userSelectedDuration : ℚ
  userSelectedBreak : ℚ
  acceptedRecommendation : Bool
  sessionCompleted : Bool
  focusedUntilSkipped : ℚ
  reward : JSNum
  skipReason : SkipReason
deriving DecidableEq, Repr

/-- The persisted state: the three AsyncStorage tables plus the session DB. -/
structure AppState where
  model : ModelState
  zones : ZoneState
  capacity : CapacityState
  sessions : List Session
deriving DecidableEq, Repr

/-! ### Constants (contextualBandits.ts, constants/timer.ts) -/

def DEFAULT_ALPHA : ℚ := 1
def DEFAULT_BETA : ℚ := 3 / 2
def EARLY_EXPLORATION_THRESHOLD : ℚ := 3
def CAPACITY_HISTORY_LIMIT : ℕ := 10
def ZONE_ACTIONS_short : List ℚ := [10, 15, 20, 25, 30]
def ZONE_ACTIONS_long : List ℚ := [25, 30, 35, 40, 45, 50, 55, 60]
def BREAK_ACTIONS : List ℚ := [5, 10, 15, 20]
def SPILLOVER_THRESHOLD : ℚ := 4 / 5
def SPILLOVER_FACTOR : ℚ := 3 / 10
def MIN_SESSION_FOR_SAVE : ℚ := 60

/-- Base arms for a zone (`ZONE_ACTIONS[zone]`). -/
def zoneBase : FocusZone → List ℚ
  | .short => ZONE_ACTIONS_short
  | .long => ZONE_ACTIONS_long

/-! ### Utility functions missing from the source tree -/

/-- Modelled from the spec: `createContextKey` (utils/contextKey) is not in
the source tree; §3 fixes the key as the deterministic string
`taskType|energyLevel`. -/
def createContextKey (c : Context) : String :=
  c.taskType ++ "|" ++ c.energyLevel.str

/-- Modelled from the spec: `roundToNearest5` (utils/time) is not in the
source tree; §4.4 fixes it as rounding to the nearest multiple of 5 with
ties resolved upward. -/
def roundToNearest5 (x : ℚ) : ℚ := 5 * (⌊x / 5 + 1 / 2⌋ : ℤ)

/-- Modelled from the spec: `secondsToMinutes` (utils/sessionUtils) is not in
the source tree; §6 reports durations in whole minutes, so seconds are
converted by rounding to the nearest minute. -/
def secondsToMinutes (s : ℚ) : ℚ := (⌊s / 60 + 1 / 2⌋ : ℤ)

/-- Modelled from the spec: `createFocusContext` (utils/sessionUtils) is not
in the source tree; the focus posterior lives under `taskType|energyLevel`. -/
def createFocusContext (taskType : String) (energyLevel : EnergyLevel) : Context :=
  ⟨taskType, energyLevel⟩

/-- Modelled from the spec: `createBreakContext` (utils/sessionUtils) is not
in the source tree; §3 fixes the break key as `taskType-break|energyLevel`. -/
def createBreakContext (taskType : String) (energyLevel : EnergyLevel) : Context :=
  ⟨taskType ++ "-break", energyLevel⟩

/-! ### Zone functions (contextualBandits.ts lines 181-304) -/

/-- Initial zone detection from a selection and energy level. -/
def detectZone (selection : ℚ) (energyLevel : EnergyLevel) : FocusZone :=
  if selection ≤ 25 then .short
  else if 35 ≤ selection then .long
  else if energyLevel = .low then .short else .long

/-- Available actions for a zone: base arms plus dynamic arms, deduplicated
and sorted ascending. -/
def getZoneActions (zone : FocusZone) (dynamicArms : List ℚ) : List ℚ :=
  sortQ (dedupFirst (zoneBase zone ++ dynamicArms))

/-- Zone-transition check over the last five selections. -/
def checkZoneTransition (zoneData : ZoneData) : FocusZone :=
  if zoneData.selections.length < 5 then zoneData.zone
  else
    let recent := zoneData.selections.drop (zoneData.selections.length - 5)
    let avgRecent := recent.foldl (· + ·) 0 / (recent.length : ℚ)
    if zoneData.zone = .short ∧ 30 ≤ avgRecent then .long
    else if zoneData.zone = .long ∧ avgRecent ≤ 25 then .short
    else zoneData.zone

/-- Get or create zone data for a context (lazily initialises and saves). -/
def getZoneData (zones : ZoneState) (contextKey : String)
    (energyLevel : EnergyLevel) (heuristicDuration : ℚ) : ZoneData × ZoneState :=
  match alookup zones contextKey with
  | some zd => (zd, zones)
  | Option.none =>
      let zd : ZoneData :=
        ⟨detectZone heuristicDuration energyLevel, 0, [], false⟩
      (zd, setEntry zones contextKey zd)

/-- Record a selected duration for a context's zone data. -/
def updateZoneData (zones : ZoneState) (contextKey : String)
    (selectedDuration : ℚ) : ZoneState :=
  let zd : ZoneData :=
    match alookup zones contextKey with
    | some zd => zd
    | Option.none =>
        ⟨if selectedDuration ≤ 30 then .short else .long, 0, [], false⟩
  let selections := zd.selections ++ [selectedDuration]
  let selections :=
    if 10 < selections.length then selections.drop (selections.length - 10)
    else selections
  let zd := { zd with
    selections := selections
    confidence := Min.min 1 ((selections.length : ℚ) / 5) }
  let newZone := checkZoneTransition zd
  let zd :=
    if newZone ≠ zd.zone then { zd with zone := newZone, transitionReady := false }
    else zd
  setEntry zones contextKey zd

/-! ### Capacity functions (contextualBandits.ts lines 313-462) -/

/-- Empty capacity stats returned for an unknown context. -/
def emptyCapacityStats : CapacityStats := ⟨[], 0, 0, .stable⟩

/-- Least-squares trend over the last five sessions; ratios are computed
with JavaScript division, so a zero `selectedDuration` yields an infinite or
NaN ratio and the comparisons below are then false (trend `stable`). -/
def calculateTrend (sessions : List SessionRec) : Trend :=
  if sessions.length < 3 then .stable
  else
    let recent := sessions.drop (sessions.length - 5)
    let ratios := recent.map
      (fun s => JSNum.div (.fin s.actualFocusTime) (.fin s.selectedDuration))
    let n : ℚ := ratios.length
    let sumX : ℚ := n * (n - 1) / 2
    let sumY := ratios.foldl JSNum.add (.fin 0)
    let sumXY := (ratios.enum).foldl
      (fun sum p => JSNum.add sum (JSNum.mul (.fin (p.1 : ℚ)) p.2)) (.fin 0)
    let sumXX : ℚ := n * (n - 1) * (2 * n - 1) / 6
    let slope := JSNum.div
      (JSNum.sub (JSNum.mul (.fin n) sumXY) (JSNum.mul (.fin sumX) sumY))
      (.fin (n * sumXX - sumX * sumX))
    if JSNum.gt slope (.fin (1 / 20)) then .growing
    else if JSNum.lt slope (.fin (-(1 / 20))) then .declining
    else .stable

/-- Capacity stats for a context (empty defaults when absent; no write). -/
def getCapacityStats (capacity : CapacityState) (contextKey : String) :
    CapacityStats :=
  (alookup capacity contextKey).getD emptyCapacityStats

/-- Append a session to a context's capacity window and recompute stats. -/
def updateCapacityStats (capacity : CapacityState) (contextKey : String)
    (selectedDuration actualFocusTime : ℚ) (completed : Bool) (now : ℚ) :
    CapacityState :=
  let stats := (alookup capacity contextKey).getD emptyCapacityStats
  let recent := stats.recentSessions ++
    [⟨selectedDuration, actualFocusTime, completed, now⟩]
  let recent :=
    if CAPACITY_HISTORY_LIMIT < recent.length then
      recent.drop (recent.length - CAPACITY_HISTORY_LIMIT)
    else recent
  let avg := recent.foldl (fun s r => s + r.actualFocusTime) 0 /
    (recent.length : ℚ)
  let rate := ((recent.filter (fun r => r.completed)).length : ℚ) /
    (recent.length : ℚ)
  setEntry capacity contextKey ⟨recent, avg, rate, calculateTrend recent⟩

/-- Adjust the model recommendation for demonstrated capacity. -/
def adjustForCapacity (modelRec : ℚ) (stats : CapacityStats)
    (energyLevel : EnergyLevel) : ℚ :=
  if stats.recentSessions.length < 3 then modelRec
  else if stats.completionRate < 1 / 2 then
    Max.max 10 (roundToNearest5 stats.averageCapacity)
  else if energyLevel = .low then modelRec
  else
    let stretchThreshold : ℚ := if energyLevel = .high then 17 / 20 else 19 / 20
    if stretchThreshold ≤ stats.completionRate ∧
        (stats.trend = .stable ∨ stats.trend = .growing) then modelRec + 5
    else modelRec

/-! ### Model functions (contextualBandits.ts lines 482-620) -/

/-- Sum over a context's arms of `α + β − α₀ − β₀`. -/
def getTotalObservations (model : ModelState) (contextKey : String) : ℚ :=
  match alookup model contextKey with
  | Option.none => 0
  | some cm =>
      cm.foldl
        (fun sum p => sum + p.2.alpha + p.2.beta - DEFAULT_ALPHA - DEFAULT_BETA) 0

/-- Posterior read back for a context and arm, defaulting to the prior. -/
def getPosterior (model : ModelState) (contextKey : String) (a : ℚ) :
    ModelParameters :=
  (alookup ((alookup model contextKey).getD []) a).getD
    ⟨DEFAULT_ALPHA, DEFAULT_BETA⟩

/-- Whether an arm key is present in a context's stored arm table. -/
def hasArm (model : ModelState) (contextKey : String) (a : ℚ) : Bool :=
  (alookup ((alookup model contextKey).getD []) a).isSome

/-- Evaluation of `Math.max(0, Math.min(1, reward))` by case on the IEEE
value; the NaN case is unreachable because `updateModel` guards on `isNaN`
before computing the weight. -/
def successWeightQ : JSNum → ℚ
  | .nan => 0
  | .posInf => 1
  | .negInf => 0
  | .fin q => Max.max 0 (Min.min 1 q)

/-- Update the posterior of one arm with a reward
(contextualBandits.ts lines 565-609). -/
def updateModel (st : AppState) (context : Context) (action : ℚ)
    (reward : JSNum) : AppState :=
  if reward = .fin 0 ∨ reward.isNaN then st
  else
    let contextKey := createContextKey context
    let model :=
      if (alookup st.model contextKey).isNone then setEntry st.model contextKey []
      else st.model
    let cm := (alookup model contextKey).getD []
    let cm :=
      if (alookup cm action).isNone then
        setArm cm action ⟨DEFAULT_ALPHA, DEFAULT_BETA⟩
      else cm
    let p := (alookup cm action).getD ⟨DEFAULT_ALPHA, DEFAULT_BETA⟩
    let successWeight := successWeightQ reward
    let failureWeight := Max.max 0 (1 - successWeight)
    let cm := setArm cm action ⟨p.alpha + successWeight, p.beta + failureWeight⟩
    { st with model := setEntry model contextKey cm }

/-- Penalise a rejected recommendation with the fixed negative weight. -/
def penalizeRejection (st : AppState) (context : Context)
    (rejectedAction : ℚ) : AppState :=
  updateModel st context rejectedAction (.fin (-(3 / 10)))

/-- Thompson-sampling arm selection (contextualBandits.ts lines 493-560).
`sample` is the Beta-draw oracle (arguments: arm, α, β) and `u` the uniform
draw of the early-exploration branch (`Math.random() ∈ [0, 1)`). -/
def getBestAction (sample : ℚ → ℚ → ℚ → ℚ) (u : ℚ) (st : AppState)
    (context : Context) (actions dynamicArms : List ℚ) : ℚ × AppState :=
  let contextKey := createContextKey context
  let zdPair := getZoneData st.zones contextKey context.energyLevel 25
  let zones := zdPair.2
  let availableActions := getZoneActions zdPair.1.zone dynamicArms
  let actionsToUse := if actions ≠ [] then actions else availableActions
  let model :=
    if (alookup st.model contextKey).isNone then setEntry st.model contextKey []
    else st.model
  let cm := actionsToUse.foldl
    (fun cm a =>
      if (alookup cm a).isNone then setArm cm a ⟨DEFAULT_ALPHA, DEFAULT_BETA⟩
      else cm)
    ((alookup model contextKey).getD [])
  let model := setEntry model contextKey cm
  let st := { st with model := model, zones := zones }
  let totalTries := getTotalObservations model contextKey
  if totalTries < EARLY_EXPLORATION_THRESHOLD then
    (actionsToUse.getD (Int.toNat ⌊u * (actionsToUse.length : ℚ)⌋) 0, st)
  else
    match actionsToUse with
    | [] => (0, st)
    | a₀ :: rest =>
        let value := fun (a : ℚ) =>
          let p := (alookup cm a).getD ⟨DEFAULT_ALPHA, DEFAULT_BETA⟩
          sample a p.alpha p.beta
        (rest.foldl (fun best a => if value best < value a then a else best) a₀,
          st)

/-! ### Recommendation pipeline (contextualBandits.ts 629-708, rl/index.ts 98-277) -/

/-- Clamp into the span of an action list:
`Math.max(Math.min(...actions), Math.min(x, Math.max(...actions)))`. -/
def clampRange (actions : List ℚ) (x : ℚ) : ℚ :=
  Max.max (listMin actions) (Min.min x (listMax actions))

/-- Energy levels strictly below the given one, iterated highest first
(the `for (let i = currentIdx - 1; i >= 0; i--)` loop of rl/index.ts);
`unset` has index −1 in the hierarchy, so nothing is below it. -/
def lowerLevels : EnergyLevel → List EnergyLevel
  | .high => [.mid, .low]
  | .mid => [.low]
  | .low => []
  | .unset => []

/-- Arm with the greatest posterior mean in a stored arm table
(`lowerArms.reduce(...)`; the earliest arm wins ties). -/
def bestMeanArm : ContextModel → Option ℚ
  | [] => Option.none
  | e :: rest =>
      some ((rest.foldl
        (fun best q =>
          let meanBest := best.2.alpha / (best.2.alpha + best.2.beta)
          let meanArm := q.2.alpha / (q.2.alpha + q.2.beta)
          if meanBest < meanArm then q else best)
        e).1)

/-- One iteration of the cross-energy floor loop: raise `floored` to the
best-mean arm stored for `taskType` at the level `lv` when that arm is
larger. -/
def floorStep (model : ModelState) (taskType : String) (floored : ℚ)
    (lv : EnergyLevel) : ℚ :=
  match alookup model (createContextKey ⟨taskType, lv⟩) with
  | Option.none => floored
  | some cm =>
      match bestMeanArm cm with
      | Option.none => floored
      | some b => if floored < b then b else floored

/-- Cross-energy floor (rl/index.ts lines 149-185): raise the adjusted
recommendation to the best-mean arm of each lower-energy context for the
same task type whenever that arm exceeds the current value. -/
def crossEnergyFloor (model : ModelState) (taskType : String)
    (energyLevel : EnergyLevel) (adjusted : ℚ) : ℚ :=
  (lowerLevels energyLevel).foldl (floorStep model taskType) adjusted

/-- Recommendation result: value and diagnostic source label. -/
structure Recommendation where
  value : ℚ
  source : RecSource
deriving DecidableEq, Repr

/-- `getSmartRecommendation` as implemented in
src/services/contextualBandits.ts (heuristic branch for fewer than 2 total
observations; no cross-energy floor). -/
def getSmartRecommendation (sample : ℚ → ℚ → ℚ → ℚ) (u : ℚ) (st : AppState)
    (context : Context) (heuristicRecommendation : ℚ) (dynamicArms : List ℚ) :
    Recommendation × AppState :=
  let contextKey := createContextKey context
  let zdPair :=
    getZoneData st.zones contextKey context.energyLevel heuristicRecommendation
  let st := { st with zones := zdPair.2 }
  let capacityStats := getCapacityStats st.capacity contextKey
  let actions := getZoneActions zdPair.1.zone dynamicArms
  let totalObs := getTotalObservations st.model contextKey
  if totalObs < 2 then
    (⟨clampRange actions heuristicRecommendation, .heuristic⟩, st)
  else
    let bestPair := getBestAction sample u st context actions dynamicArms
    let modelRec := bestPair.1
    let capacityAdjusted :=
      adjustForCapacity modelRec capacityStats context.energyLevel
    let finalValue := clampRange actions capacityAdjusted
    let source : RecSource :=
      if capacityAdjusted ≠ modelRec then .capacity
      else if 5 ≤ totalObs then .learned
      else .blended
    (⟨finalValue, source⟩, bestPair.2)

/-- `getSmartRecommendation` as implemented in src/services/rl/index.ts
(heuristic branch for fewer than 1 total observation; cross-energy floor
between the capacity adjustment and the final clamp; the floor reads the
model snapshot loaded before `getBestAction`). -/
def rlGetSmartRecommendation (sample : ℚ → ℚ → ℚ → ℚ) (u : ℚ) (st : AppState)
    (context : Context) (heuristicRecommendation : ℚ) (dynamicArms : List ℚ) :
    Recommendation × AppState :=
  let contextKey := createContextKey context
  let zdPair :=
    getZoneData st.zones contextKey context.energyLevel heuristicRecommendation
  let st := { st with zones := zdPair.2 }
  let capacityStats := getCapacityStats st.capacity contextKey
  let actions := getZoneActions zdPair.1.zone dynamicArms
  let model := st.model
  let totalObs := getTotalObservations model contextKey
  if totalObs < 1 then
    (⟨clampRange actions heuristicRecommendation, .heuristic⟩, st)
  else
    let bestPair := getBestAction sample u st context actions dynamicArms
    let modelRec := bestPair.1
    let capacityAdjusted :=
      adjustForCapacity modelRec capacityStats context.energyLevel
    let floored :=
      crossEnergyFloor model context.taskType context.energyLevel
        capacityAdjusted
    let finalValue := clampRange actions floored
    let source : RecSource :=
      if capacityAdjusted ≠ modelRec then .capacity
      else if 5 ≤ totalObs then .learned
      else .blended
    (⟨finalValue, source⟩, bestPair.2)

/-- Break arms permitted after a focus session:
`BREAK_ACTIONS.filter(a => a <= Math.max(5, Math.floor(focusDuration / 3)))`. -/
def getBreakActionsForFocus (focusDuration : ℚ) : List ℚ :=
  let maxBreak := Max.max 5 ((⌊focusDuration / 3⌋ : ℤ) : ℚ)
  BREAK_ACTIONS.filter (fun a => a ≤ maxBreak)

/-- Smart break recommendation over the break context. -/
def getSmartBreakRecommendation (sample : ℚ → ℚ → ℚ → ℚ) (u : ℚ)
    (st : AppState) (context : Context) (baseBreak focusDuration : ℚ) :
    Recommendation × AppState :=
  let breakContext : Context :=
    { context with taskType := context.taskType ++ "-break" }
  let contextKey := createContextKey breakContext
  let availableBreaks := getBreakActionsForFocus focusDuration
  let clampedBase := Min.min baseBreak (listMax availableBreaks)
  let totalObs := getTotalObservations st.model contextKey
  if totalObs < 2 then (⟨clampedBase, .heuristic⟩, st)
  else
    let bestPair := getBestAction sample u st breakContext availableBreaks []
    (⟨bestPair.1, .learned⟩, bestPair.2)

/-! ### Reward (services/recommendations, calculateReward) -/

def RECOMMENDATION_BONUS : ℚ := 3 / 20
def SKIPPED_FOCUS_BASE : ℚ := 2 / 5
def SKIPPED_BREAK_BASE : ℚ := 3 / 10
def SKIPPED_BREAK_MULTIPLIER : ℚ := 3 / 10
def COMPLETED_BASE : ℚ := 7 / 10
def COMPLETED_MULTIPLIER : ℚ := 3 / 10
def IDEAL_MAX_DURATION : ℚ := 60
def EXCESS_PENALTY_MULTIPLIER : ℚ := 1 / 10

/-- Reward for a session outcome.  The focus ratio uses JavaScript division,
so a zero target duration produces an IEEE special value rather than the 0
the specification describes. -/
def calculateReward (sessionCompleted acceptedRecommendation : Bool)
    (focusedUntilSkipped userSelectedDuration recommendedDuration : ℚ)
    (skipReason : SkipReason) : JSNum :=
  let targetDuration :=
    if acceptedRecommendation then recommendedDuration else userSelectedDuration
  let focusRatio :=
    JSNum.min (.fin 1) (JSNum.div (.fin focusedUntilSkipped) (.fin targetDuration))
  let recommendationBonus : ℚ :=
    if acceptedRecommendation then RECOMMENDATION_BONUS else 0
  let reward : JSNum :=
    match skipReason with
    | .skippedFocus =>
        JSNum.add (JSNum.mul (.fin SKIPPED_FOCUS_BASE) focusRatio)
          (.fin recommendationBonus)
    | .skippedBreak =>
        JSNum.add
          (JSNum.add (.fin SKIPPED_BREAK_BASE)
            (JSNum.mul (.fin SKIPPED_BREAK_MULTIPLIER) focusRatio))
          (.fin recommendationBonus)
    | .none =>
        if sessionCompleted then
          JSNum.add
            (JSNum.add (.fin COMPLETED_BASE)
              (JSNum.mul (.fin COMPLETED_MULTIPLIER) focusRatio))
            (.fin recommendationBonus)
        else .fin 0
  let reward :=
    if IDEAL_MAX_DURATION < targetDuration then
      JSNum.sub reward
        (.fin (EXCESS_PENALTY_MULTIPLIER *
          Min.min 1 ((targetDuration - IDEAL_MAX_DURATION) / IDEAL_MAX_DURATION)))
    else reward
  JSNum.min (.fin 1) (JSNum.max (.fin 0) reward)

/-! ### Session completion (src/services/sessionCompletionService.ts) -/

/-- Parameters of `completeSession`; durations in seconds as in the source. -/
structure SessionCompletionParams where
  type : CompletionType
  taskType : String
  energyLevel : EnergyLevel
  recommendedFocusDuration : ℚ
  recommendedBreakDuration : ℚ
  userAcceptedRecommendation : Bool
  originalFocusDuration : ℚ
  selectedBreakDuration : ℚ
  focusedTime : ℚ
deriving DecidableEq, Repr

/-- Complete a session: guard, reward, session row, and the RL updates.
`acs` stands in for `applyCapacityScaling` (services/recommendations), which
is not in the source tree; its arguments are the base reward, the focus
minutes and the context's average capacity, and it is only consulted for
completed sessions.  `now` is the clock value used for capacity timestamps. -/
def completeSession (acs : JSNum → ℚ → ℚ → JSNum) (now : ℚ)
    (p : SessionCompletionParams) (st : AppState) : AppState :=
  if p.type ≠ .completed ∧ p.focusedTime < MIN_SESSION_FOR_SAVE then st
  else
    let focusTimeInMinutes := secondsToMinutes p.focusedTime
    let totalFocusDuration := secondsToMinutes p.originalFocusDuration
    let breakTimeInMinutes := secondsToMinutes p.selectedBreakDuration
    let sessionCompleted := p.type = .completed
    let skipReason : SkipReason :=
      match p.type with
      | .skippedFocus => .skippedFocus
      | .skippedBreak => .skippedBreak
      | .completed => .none
    let baseReward := calculateReward sessionCompleted
      p.userAcceptedRecommendation focusTimeInMinutes totalFocusDuration
      p.recommendedFocusDuration skipReason
    let contextKey := p.taskType ++ "|" ++ p.energyLevel.str
    let reward :=
      if sessionCompleted then
        acs baseReward focusTimeInMinutes
          (getCapacityStats st.capacity contextKey).averageCapacity
      else baseReward
    let row : Session :=
      ⟨p.taskType, p.energyLevel, p.recommendedFocusDuration,
        p.recommendedBreakDuration, totalFocusDuration,
        if sessionCompleted then breakTimeInMinutes else 0,
        p.userAcceptedRecommendation, sessionCompleted, focusTimeInMinutes,
        reward, skipReason⟩
    let st := { st with sessions := st.sessions ++ [row] }
    let focusContext := createFocusContext p.taskType p.energyLevel
    if sessionCompleted then
      let st := updateModel st focusContext focusTimeInMinutes reward
      let breakContext := createBreakContext p.taskType p.energyLevel
      let st := updateModel st breakContext breakTimeInMinutes reward
      let capacity := updateCapacityStats st.capacity contextKey
        focusTimeInMinutes focusTimeInMinutes true now
      let st := { st with capacity := capacity }
      let zones := updateZoneData st.zones contextKey focusTimeInMinutes
      let st := { st with zones := zones }
      if JSNum.ge reward (.fin SPILLOVER_THRESHOLD) then
        let zdPair :=
          getZoneData st.zones contextKey p.energyLevel focusTimeInMinutes
        let st := { st with zones := zdPair.2 }
        let zoneActions := getZoneActions zdPair.1.zone []
        match zoneActions.find? (fun a => focusTimeInMinutes < a) with
        | some nextArm =>
            updateModel st focusContext nextArm
              (JSNum.mul reward (.fin SPILLOVER_FACTOR))
        | Option.none => st
      else st
    else if p.type = .skippedFocus then
      let capacity := updateCapacityStats st.capacity contextKey
        totalFocusDuration focusTimeInMinutes false now
      { st with capacity := capacity }
    else
      let st := updateModel st focusContext focusTimeInMinutes reward
      let breakContext := createBreakContext p.taskType p.energyLevel
      updateModel st breakContext 0 reward

/-! ### Shared concrete fixtures for witnesses and counterexamples -/

/-- Beta-draw oracle returning the distribution-free value 1/2. -/
def exSample : ℚ → ℚ → ℚ → ℚ := fun _ _ _ => 1 / 2

/-- Uniform draw fixed at 0. -/
def exU : ℚ := 0

def exCtx : Context := ⟨"Coding", .mid⟩

/-- Cold state: all tables empty. -/
def exSt0 : AppState := ⟨[], [], [], []⟩

/-- State with exactly one observation on arm 25 of `Coding|mid`
(`α + β − α₀ − β₀ = 2 + 3/2 − 5/2 = 1`). -/
def exSt1 : AppState := ⟨[("Coding|mid", [(25, ⟨2, 3 / 2⟩)])], [], [], []⟩

/-- Capacity scaling treated as the identity; the paths exercised below
never consult it. -/
def exAcs : JSNum → ℚ → ℚ → JSNum := fun r _ _ => r

/-- A skipped-break session: 25 selected minutes, all 1500 s focused. -/
def exP0 : SessionCompletionParams :=
  ⟨.skippedBreak, "Coding", .mid, 25, 5, false, 1500, 300, 1500⟩

/-- A skipped-focus session of only 30 focused seconds. -/
def exP1 : SessionCompletionParams :=
  ⟨.skippedFocus, "Coding", .mid, 25, 5, false, 1500, 300, 30⟩

/-! ### Helper lemmas -/

theorem successWeightQ_nonneg (r : JSNum) : 0 ≤ successWeightQ r := by
  cases r with
  | fin q => exact le_max_left _ _
  | nan => exact le_refl 0
  | posInf => exact zero_le_one
  | negInf => exact le_refl 0

theorem successWeightQ_le_one (r : JSNum) : successWeightQ r ≤ 1 := by
  cases r with
  | fin q =>
      exact max_le zero_le_one (min_le_left _ _)
  | nan => exact zero_le_one
  | posInf => exact le_refl 1
  | negInf => exact zero_le_one

theorem failureWeight_eq (r : JSNum) :
    Max.max 0 (1 - successWeightQ r) = 1 - successWeightQ r :=
  max_eq_right (by linarith [successWeightQ_le_one r])

/-- Posterior read back after `updateModel` with a reward that passes the
guard: `α` grows by the clamped success weight, `β` by its complement. -/
theorem getPosterior_updateModel (st : AppState) (ctx : Context) (a : ℚ)
    (r : JSNum) (h : ¬(r = .fin 0 ∨ r.isNaN = true)) :
    getPosterior (updateModel st ctx a r).model (createContextKey ctx) a =
      ⟨(getPosterior st.model (createContextKey ctx) a).alpha + successWeightQ r,
       (getPosterior st.model (createContextKey ctx) a).beta +
         (1 - successWeightQ r)⟩ := by
  unfold updateModel
  rw [if_neg h]
  cases hm : alookup st.model (createContextKey ctx) with
  | none =>
      simp [getPosterior, hm, alookup_setEntry_self, alookup_setArm_self,
        alookup, failureWeight_eq r]
  | some cm0 =>
      cases hca : alookup cm0 a with
      | none =>
          simp [getPosterior, hm, hca, alookup_setEntry_self,
            alookup_setArm_self, failureWeight_eq r]
      | some pa =>
          simp [getPosterior, hm, hca, alookup_setEntry_self,
            alookup_setArm_self, failureWeight_eq r]

/-- Arms present after `updateModel` were present before or are the arm the
update targeted. -/
theorem hasArm_updateModel (st : AppState) (ctx : Context) (act : ℚ)
    (r : JSNum) (k : String) (a : ℚ)
    (h : hasArm (updateModel st ctx act r).model k a = true) :
    hasArm st.model k a = true ∨ a = act := by
  by_cases hg : r = .fin 0 ∨ r.isNaN = true
  · unfold updateModel at h
    rw [if_pos hg] at h
    exact Or.inl h
  · unfold updateModel at h
    rw [if_neg hg] at h
    by_cases ha : a = act
    · exact Or.inr ha
    · left
      have hne : act ≠ a := fun he => ha he.symm
      by_cases hk : createContextKey ctx = k
      · subst hk
        cases hm : alookup st.model (createContextKey ctx) with
        | none =>
            simp [hasArm, hm, alookup_setEntry_self,
              alookup_setArm_ne _ _ _ _ hne, alookup] at h
            exact absurd h hne
        | some cm0 =>
            cases hca : alookup cm0 act with
            | none =>
                simp only [hasArm, hm, alookup_setEntry_self, hca,
                  Option.isNone_some, Option.isNone_none, if_pos, if_true,
                  Option.getD_some, Bool.false_eq_true, if_false,
                  alookup_setArm_ne _ _ _ _ hne] at h
                simp [hasArm, hm, h]
            | some pact =>
                simp only [hasArm, hm, alookup_setEntry_self, hca,
                  Option.isNone_some, Option.getD_some, Bool.false_eq_true,
                  if_false, alookup_setArm_ne _ _ _ _ hne] at h
                simp [hasArm, hm, h]
      · cases hm : alookup st.model (createContextKey ctx) with
        | none =>
            simp only [hasArm, hm, Option.isNone_none, if_true,
              alookup_setEntry_ne _ _ _ _ hk] at h
            simp [hasArm, h]
        | some cm0 =>
            simp only [hasArm, hm, Option.isNone_some, Bool.false_eq_true,
              if_false, alookup_setEntry_ne _ _ _ _ hk] at h
            simp [hasArm, h]

/-- The clamped value stays in the span of a non-empty action list. -/
theorem clampRange_bounds (actions : List ℚ) (x : ℚ) (h : actions ≠ []) :
    listMin actions ≤ clampRange actions x ∧
      clampRange actions x ≤ listMax actions := by
  obtain ⟨hd, t, rfl⟩ := List.exists_cons_of_ne_nil h
  have h₁ : listMin (hd :: t) ≤ hd := listMin_le_mem _ _ (by simp)
  have h₂ : hd ≤ listMax (hd :: t) := mem_le_listMax _ _ (by simp)
  exact ⟨le_max_left _ _,
    max_le (le_trans h₁ h₂) (min_le_right _ _)⟩

theorem mem_getZoneActions (zone : FocusZone) (d : List ℚ) (a : ℚ) :
    a ∈ getZoneActions zone d ↔ a ∈ zoneBase zone ++ d := by
  simp [getZoneActions, mem_sortQ, mem_dedupFirst]

theorem getZoneActions_ne_nil (zone : FocusZone) (d : List ℚ) :
    getZoneActions zone d ≠ [] := by
  apply List.ne_nil_of_mem (a := (25 : ℚ))
  rw [mem_getZoneActions]
  cases zone <;> simp [zoneBase, ZONE_ACTIONS_short, ZONE_ACTIONS_long]

/-- Evaluation rule for `secondsToMinutes` at concrete arguments. -/
theorem secondsToMinutes_eq (s : ℚ) (n : ℤ) (h1 : (n : ℚ) ≤ s / 60 + 1 / 2)
    (h2 : s / 60 + 1 / 2 < n + 1) : secondsToMinutes s = n := by
  unfold secondsToMinutes
  rw [Int.floor_eq_iff.mpr ⟨h1, h2⟩]

/-! ### Claim C9 -/

/-- C9: every call to `completeSession` with a type other than `completed`
and fewer than `MIN_SESSION_FOR_SAVE` (60) focused seconds returns early
with no state change at all: no session row is saved and no posterior, zone
or capacity record is written. -/
theorem C9_short_skipped_session_is_noop (acs : JSNum → ℚ → ℚ → JSNum)
    (now : ℚ) (p : SessionCompletionParams) (st : AppState)
    (h₁ : p.type ≠ .completed) (h₂ : p.focusedTime < MIN_SESSION_FOR_SAVE) :
    completeSession acs now p st = st := by
  unfold completeSession
  rw [if_pos ⟨h₁, h₂⟩]

/-- Witness for C9: a 30-second skipped-focus session leaves the cold state
untouched. -/
theorem C9_witness :
    exP1.type ≠ CompletionType.completed ∧
      exP1.focusedTime < MIN_SESSION_FOR_SAVE ∧
      completeSession exAcs 0 exP1 exSt0 = exSt0 :=
  ⟨by decide, by decide,
    C9_short_skipped_session_is_noop exAcs 0 exP1 exSt0 (by decide) (by decide)⟩

/-! ### Claim C10 -/

/-- C10: for every finite numeric focus duration - including 0 and negative
values - `getBreakActionsForFocus` returns a non-empty list whose minimum
element is 5, so the maximum taken over permitted break arms inside
`getSmartBreakRecommendation` is always well-defined. -/
theorem C10_break_actions_contain_five (f : ℚ) :
    (5 : ℚ) ∈ getBreakActionsForFocus f ∧
      (∀ x ∈ getBreakActionsForFocus f, (5 : ℚ) ≤ x) ∧
      getBreakActionsForFocus f ≠ [] := by
  have h5 : (5 : ℚ) ∈ getBreakActionsForFocus f := by
    unfold getBreakActionsForFocus BREAK_ACTIONS
    simp only [List.mem_filter, decide_eq_true_eq]
    exact ⟨by simp, le_max_left _ _⟩
  refine ⟨h5, ?_, List.ne_nil_of_mem h5⟩
  intro x hx
  unfold getBreakActionsForFocus BREAK_ACTIONS at hx
  simp only [List.mem_filter] at hx
  have hxm := hx.1
  fin_cases hxm <;> norm_num

/-- Witness for C10: a 30-minute focus session permits the break arms 5 and
10, and each permitted arm is at least 5. -/
theorem C10_witness :
    (5 : ℚ) ∈ getBreakActionsForFocus 30 ∧
      (10 : ℚ) ∈ getBreakActionsForFocus 30 ∧ (5 : ℚ) ≤ 10 := by
  have hf : (⌊(30 : ℚ) / 3⌋ : ℤ) = 10 := Int.floor_eq_iff.mpr (by norm_num)
  have h10 : (10 : ℚ) ∈ getBreakActionsForFocus 30 := by
    norm_num [getBreakActionsForFocus, BREAK_ACTIONS, hf]
  exact ⟨(C10_break_actions_contain_five 30).1, h10,
    (C10_break_actions_contain_five 30).2.1 10 h10⟩

/-! ### Claim C5 -/

/-- Counterexample for C5: penalising a rejection on the prior posterior
yields `β = 5/2`, not the `β₀ + 0.3 = 1.8` the claim asserts. -/
theorem C5_counterexample :
    getPosterior (penalizeRejection exSt0 exCtx 25).model "Coding|mid" 25 ≠
      ⟨DEFAULT_ALPHA, DEFAULT_BETA + 3 / 10⟩ := by
  norm_num +decide [penalizeRejection, updateModel, exSt0, exCtx,
    getPosterior, createContextKey, EnergyLevel.str, alookup, setEntry,
    setArm, successWeightQ, DEFAULT_ALPHA, DEFAULT_BETA, JSNum.isNaN]

/-- C5 (amended): `penalizeRejection` writes the weight −0.3, which
`updateModel` clamps to success weight 0 and failure weight 1, so the
posterior changes by `β ← β + 1` with `α` unchanged; neither parameter ever
decreases. -/
theorem C5_penalize_adds_one_to_beta (st : AppState) (ctx : Context)
    (a : ℚ) :
    getPosterior (penalizeRejection st ctx a).model (createContextKey ctx) a =
      ⟨(getPosterior st.model (createContextKey ctx) a).alpha,
        (getPosterior st.model (createContextKey ctx) a).beta + 1⟩ := by
  unfold penalizeRejection
  have hw : successWeightQ (.fin (-(3 / 10))) = 0 := by
    simp only [successWeightQ]
    rw [min_eq_right (by norm_num), max_eq_left (by norm_num)]
  rw [getPosterior_updateModel st ctx a _ (by norm_num [JSNum.isNaN])]
  rw [hw]
  norm_num

/-! ### Claim C1 -/

/-- Counterexample for C1: the reward `+Infinity` is non-finite, yet
`updateModel` (which guards only on NaN and exact 0) changes the stored
posterior: `α` grows from 1 to 2. -/
theorem C1_counterexample :
    updateModel exSt0 exCtx 25 JSNum.posInf ≠ exSt0 ∧
      getPosterior (updateModel exSt0 exCtx 25 JSNum.posInf).model
          "Coding|mid" 25 ≠
        getPosterior exSt0.model "Coding|mid" 25 := by
  constructor <;>
    norm_num +decide [updateModel, exSt0, exCtx, getPosterior,
      createContextKey, EnergyLevel.str, alookup, setEntry, setArm,
      successWeightQ, DEFAULT_ALPHA, DEFAULT_BETA, JSNum.isNaN]

/-- C1 (amended): `updateModel` leaves the state unchanged exactly when the
reward is NaN or exactly 0 (infinite rewards pass the guard and are clamped
like any other value); for finite non-zero rewards the stored posterior
moves from `(α, β)` to `(α + r', β + (1 − r'))` with `r'` the reward clamped
to `[0, 1]`, so for `r ∈ (0, 1]` reading back yields
`α' = α + r ∧ β' = β + (1 − r)`. -/
theorem C1_update_model_rule (st : AppState) (ctx : Context) (a : ℚ)
    (r : JSNum) :
    (r = .fin 0 ∨ r = .nan → updateModel st ctx a r = st) ∧
    (∀ q : ℚ, r = .fin q → q ≠ 0 →
      getPosterior (updateModel st ctx a r).model (createContextKey ctx) a =
        ⟨(getPosterior st.model (createContextKey ctx) a).alpha +
            Max.max 0 (Min.min 1 q),
          (getPosterior st.model (createContextKey ctx) a).beta +
            (1 - Max.max 0 (Min.min 1 q))⟩) ∧
    (∀ q : ℚ, r = .fin q → 0 < q → q ≤ 1 →
      getPosterior (updateModel st ctx a r).model (createContextKey ctx) a =
        ⟨(getPosterior st.model (createContextKey ctx) a).alpha + q,
          (getPosterior st.model (createContextKey ctx) a).beta + (1 - q)⟩) := by
  refine ⟨?_, ?_, ?_⟩
  · intro hr
    unfold updateModel
    rcases hr with rfl | rfl <;> simp [JSNum.isNaN]
  · rintro q rfl hq0
    rw [getPosterior_updateModel st ctx a _ (by simp [JSNum.isNaN, hq0])]
    simp [successWeightQ]
  · rintro q rfl h0 h1
    rw [getPosterior_updateModel st ctx a _
      (by simp [JSNum.isNaN, ne_of_gt h0])]
    have hq : successWeightQ (.fin q) = q := by
      simp only [successWeightQ]
      rw [min_eq_right h1, max_eq_right h0.le]
    rw [hq]

/-- Witness for C1 (amended): the zero reward is a no-op on the cold state,
and reward 1/2 moves the prior posterior to `(α₀ + 1/2, β₀ + 1/2)`. -/
theorem C1_witness :
    updateModel exSt0 exCtx 25 (.fin 0) = exSt0 ∧
      getPosterior (updateModel exSt0 exCtx 25 (.fin (1 / 2))).model
          (createContextKey exCtx) 25 =
        ⟨(getPosterior exSt0.model (createContextKey exCtx) 25).alpha + 1 / 2,
          (getPosterior exSt0.model (createContextKey exCtx) 25).beta +
            (1 - 1 / 2)⟩ :=
  ⟨(C1_update_model_rule exSt0 exCtx 25 (.fin 0)).1 (Or.inl rfl),
    (C1_update_model_rule exSt0 exCtx 25 (.fin (1 / 2))).2.2 (1 / 2) rfl
      (by norm_num) (by norm_num)⟩

/-! ### Claim C8 -/

/-- Counterexample for C8: a first recorded selection of 30 minutes (mid
energy) creates the zone record with zone `short` via `updateZoneData`,
while `detectZone` - and the claim - give `long` for 30 at mid energy. -/
theorem C8_counterexample :
    (alookup (updateZoneData [] "Coding|mid" 30) "Coding|mid").map
        ZoneData.zone = some FocusZone.short ∧
      detectZone 30 .mid = FocusZone.long := by
  constructor
  · norm_num +decide [updateZoneData, alookup, setEntry,
      checkZoneTransition]
  · norm_num +decide [detectZone]

/-- C8 (amended): on first recommendation query the created zone follows
`detectZone` (short iff ≤ 25, long iff ≥ 35, otherwise short exactly for
low energy); on first recorded selection `updateZoneData` instead assigns
short iff the duration is ≤ 30, ignoring the energy level. -/
theorem C8_zone_creation (zones : ZoneState) (key : String)
    (e : EnergyLevel) (h sel : ℚ) (hmiss : alookup zones key = Option.none) :
    ((getZoneData zones key e h).1).zone = detectZone h e ∧
    (alookup (getZoneData zones key e h).2 key).map ZoneData.zone =
      some (detectZone h e) ∧
    (alookup (updateZoneData zones key sel) key).map ZoneData.zone =
      some (if sel ≤ 30 then FocusZone.short else FocusZone.long) ∧
    detectZone 30 .mid = FocusZone.long ∧
    detectZone 30 .low = FocusZone.short ∧
    (∀ e₀, detectZone 25 e₀ = FocusZone.short ∧
      detectZone 35 e₀ = FocusZone.long) := by
  refine ⟨?_, ?_, ?_, by norm_num +decide [detectZone], by norm_num +decide [detectZone],
    fun e₀ => ⟨by norm_num +decide [detectZone], by norm_num +decide [detectZone]⟩⟩
  · simp [getZoneData, hmiss]
  · simp [getZoneData, hmiss, alookup_setEntry_self]
  · unfold updateZoneData
    rw [hmiss]
    simp [alookup_setEntry_self, checkZoneTransition]

/-- Witness for C8 (amended): on the empty zone table, a first query with
heuristic 30 at mid energy creates a `long` zone. -/
theorem C8_witness :
    alookup ([] : ZoneState) "Coding|mid" = Option.none ∧
      ((getZoneData [] "Coding|mid" .mid 30).1).zone = detectZone 30 .mid :=
  ⟨rfl, (C8_zone_creation [] "Coding|mid" .mid 30 40 rfl).1⟩

/-! ### Claim C4 -/

/-- Counterexample for C4: with a zero target duration and zero focused
minutes the focus ratio is `0/0 = NaN`, which survives every clamp, so
`calculateReward` returns NaN - not a value in `[0, 1]`, and not the ratio-0
behaviour the claim describes for a zero target. -/
theorem C4_counterexample :
    calculateReward false false 0 0 25 .skippedFocus = JSNum.nan := by
  norm_num [calculateReward, JSNum.div, JSNum.min, JSNum.max, JSNum.add,
    JSNum.mul, SKIPPED_FOCUS_BASE, RECOMMENDATION_BONUS, IDEAL_MAX_DURATION]

/-- A JavaScript value that is either finite or `-Infinity`; every branch of
the reward computation stays in this set once the focus ratio does. -/
def finOrNegInf (w : JSNum) : Prop := (∃ y : ℚ, w = .fin y) ∨ w = .negInf

theorem finOrNegInf_mul_const (c : ℚ) (hc : 0 < c) (w : JSNum)
    (h : finOrNegInf w) : finOrNegInf (JSNum.mul (.fin c) w) := by
  rcases h with ⟨y, rfl⟩ | rfl
  · exact Or.inl ⟨c * y, rfl⟩
  · right
    simp [JSNum.mul, hc]

theorem finOrNegInf_add_right (w : JSNum) (b : ℚ) (h : finOrNegInf w) :
    finOrNegInf (JSNum.add w (.fin b)) := by
  rcases h with ⟨y, rfl⟩ | rfl
  · exact Or.inl ⟨y + b, rfl⟩
  · exact Or.inr rfl

theorem finOrNegInf_add_left (a : ℚ) (w : JSNum) (h : finOrNegInf w) :
    finOrNegInf (JSNum.add (.fin a) w) := by
  rcases h with ⟨y, rfl⟩ | rfl
  · exact Or.inl ⟨a + y, rfl⟩
  · exact Or.inr rfl

theorem finOrNegInf_sub_const (w : JSNum) (b : ℚ) (h : finOrNegInf w) :
    finOrNegInf (JSNum.sub w (.fin b)) := by
  rcases h with ⟨y, rfl⟩ | rfl
  · exact Or.inl ⟨y + -b, rfl⟩
  · exact Or.inr rfl

/-- The final clamp of the reward maps a finite-or-`-Infinity` value into a
finite value of `[0, 1]`. -/
theorem exists_clamp (w : JSNum) (h : finOrNegInf w) :
    ∃ q : ℚ, JSNum.min (.fin 1) (JSNum.max (.fin 0) w) = .fin q ∧
      0 ≤ q ∧ q ≤ 1 := by
  rcases h with ⟨y, rfl⟩ | rfl
  · exact ⟨Min.min 1 (Max.max 0 y), by simp [JSNum.min, JSNum.max],
      le_min zero_le_one (le_max_left 0 y), min_le_left 1 _⟩
  · refine ⟨0, ?_, le_refl 0, zero_le_one⟩
    norm_num [JSNum.min, JSNum.max]

/-- C4 (amended): `calculateReward` returns a finite value in `[0, 1]` for
every input except a zero target duration combined with zero focused
minutes, where the JavaScript division makes the ratio NaN and the function
returns NaN.  There is no special-casing of a zero target: with a positive
focused time the ratio saturates at 1 rather than the 0 the claim states. -/
theorem C4_reward_in_unit_range (sc ar : Bool) (f u r : ℚ) (sk : SkipReason)
    (h : ¬((if ar then r else u) = 0 ∧ f = 0)) :
    ∃ q : ℚ, calculateReward sc ar f u r sk = .fin q ∧ 0 ≤ q ∧ q ≤ 1 := by
  have hratio : finOrNegInf
      (JSNum.min (.fin 1) (JSNum.div (.fin f) (.fin (if ar then r else u)))) := by
    by_cases ht0 : (if ar then r else u) = 0
    · have hf0 : f ≠ 0 := fun hf => h ⟨ht0, hf⟩
      rcases lt_or_gt_of_ne hf0 with hf | hf
      · right
        rw [ht0]
        simp [JSNum.div, JSNum.min, hf, asymm hf]
      · left
        rw [ht0]
        refine ⟨1, ?_⟩
        simp [JSNum.div, JSNum.min, hf, asymm hf]
    · left
      refine ⟨Min.min 1 (f / (if ar then r else u)), ?_⟩
      simp [JSNum.div, JSNum.min, ht0]
  unfold calculateReward
  apply exists_clamp
  have hbranch : finOrNegInf
      (match sk with
        | .skippedFocus =>
            JSNum.add
              (JSNum.mul (.fin SKIPPED_FOCUS_BASE)
                (JSNum.min (.fin 1)
                  (JSNum.div (.fin f) (.fin (if ar then r else u)))))
              (.fin (if ar then RECOMMENDATION_BONUS else 0))
        | .skippedBreak =>
            JSNum.add
              (JSNum.add (.fin SKIPPED_BREAK_BASE)
                (JSNum.mul (.fin SKIPPED_BREAK_MULTIPLIER)
                  (JSNum.min (.fin 1)
                    (JSNum.div (.fin f) (.fin (if ar then r else u))))))
              (.fin (if ar then RECOMMENDATION_BONUS else 0))
        | .none =>
            if sc then
              JSNum.add
                (JSNum.add (.fin COMPLETED_BASE)
                  (JSNum.mul (.fin COMPLETED_MULTIPLIER)
                    (JSNum.min (.fin 1)
                      (JSNum.div (.fin f) (.fin (if ar then r else u))))))
                (.fin (if ar then RECOMMENDATION_BONUS else 0))
            else .fin 0) := by
    cases sk with
    | skippedFocus =>
        exact finOrNegInf_add_right _ _
          (finOrNegInf_mul_const _ (by norm_num [SKIPPED_FOCUS_BASE]) _ hratio)
    | skippedBreak =>
        exact finOrNegInf_add_right _ _
          (finOrNegInf_add_left _ _
            (finOrNegInf_mul_const _
              (by norm_num [SKIPPED_BREAK_MULTIPLIER]) _ hratio))
    | none =>
        cases sc with
        | true =>
            exact finOrNegInf_add_right _ _
              (finOrNegInf_add_left _ _
                (finOrNegInf_mul_const _
                  (by norm_num [COMPLETED_MULTIPLIER]) _ hratio))
        | false => exact Or.inl ⟨0, rfl⟩
  by_cases hp : IDEAL_MAX_DURATION < (if ar then r else u)
  · rw [if_pos hp]
    exact finOrNegInf_sub_const _ _ hbranch
  · rw [if_neg hp]
    exact hbranch

/-- Witness for C4 (amended): a plain skipped break with 25 of 25 minutes
focused gets a reward in `[0, 1]`. -/
theorem C4_witness :
    ¬((if false then (25 : ℚ) else 25) = 0 ∧ (25 : ℚ) = 0) ∧
      ∃ q : ℚ, calculateReward false false 25 25 25 .skippedBreak = .fin q ∧
        0 ≤ q ∧ q ≤ 1 :=
  ⟨by norm_num,
    C4_reward_in_unit_range false false 25 25 25 .skippedBreak (by norm_num)⟩

/-! ### Claim C2 -/

/-- In the contextualBandits.ts implementation, fewer than 2 total
observations yield the clamped heuristic. -/
theorem heuristic_of_lt_two (sample : ℚ → ℚ → ℚ → ℚ) (u : ℚ) (st : AppState)
    (ctx : Context) (h : ℚ) (d : List ℚ)
    (hlt : getTotalObservations st.model (createContextKey ctx) < 2) :
    (getSmartRecommendation sample u st ctx h d).1 =
      ⟨clampRange
          (getZoneActions
            ((getZoneData st.zones (createContextKey ctx)
                ctx.energyLevel h).1).zone d) h,
        .heuristic⟩ := by
  simp only [getSmartRecommendation]
  rw [if_pos hlt]

/-- In the contextualBandits.ts implementation, the model path never labels
its result `heuristic`. -/
theorem source_ne_heuristic_of_two_le (sample : ℚ → ℚ → ℚ → ℚ) (u : ℚ)
    (st : AppState) (ctx : Context) (h : ℚ) (d : List ℚ)
    (hge : 2 ≤ getTotalObservations st.model (createContextKey ctx)) :
    (getSmartRecommendation sample u st ctx h d).1.source ≠ .heuristic := by
  simp only [getSmartRecommendation]
  rw [if_neg (not_lt.mpr hge)]
  split
  · simp
  · split <;> simp

/-- In the rl/index.ts implementation, fewer than 1 total observation yields
the clamped heuristic. -/
theorem rl_heuristic_of_lt_one (sample : ℚ → ℚ → ℚ → ℚ) (u : ℚ)
    (st : AppState) (ctx : Context) (h : ℚ) (d : List ℚ)
    (hlt : getTotalObservations st.model (createContextKey ctx) < 1) :
    (rlGetSmartRecommendation sample u st ctx h d).1 =
      ⟨clampRange
          (getZoneActions
            ((getZoneData st.zones (createContextKey ctx)
                ctx.energyLevel h).1).zone d) h,
        .heuristic⟩ := by
  simp only [rlGetSmartRecommendation]
  rw [if_pos hlt]

/-- In the rl/index.ts implementation, one observation already takes the
model path, whose label is never `heuristic`. -/
theorem rl_source_ne_heuristic_of_one_le (sample : ℚ → ℚ → ℚ → ℚ) (u : ℚ)
    (st : AppState) (ctx : Context) (h : ℚ) (d : List ℚ)
    (hge : 1 ≤ getTotalObservations st.model (createContextKey ctx)) :
    (rlGetSmartRecommendation sample u st ctx h d).1.source ≠ .heuristic := by
  simp only [rlGetSmartRecommendation]
  rw [if_neg (not_lt.mpr hge)]
  split
  · simp
  · split <;> simp

/-- Counterexample for C2: a context with exactly one total observation
(`N(C) = 1 < 2`) does not take the heuristic branch of the rl/index.ts
`getSmartRecommendation` - the source label is not `heuristic`. -/
theorem C2_counterexample :
    getTotalObservations exSt1.model (createContextKey exCtx) = 1 ∧
      (rlGetSmartRecommendation exSample exU exSt1 exCtx 25 []).1.source ≠
        RecSource.heuristic := by
  have h1 : getTotalObservations exSt1.model (createContextKey exCtx) = 1 := by
    norm_num +decide [getTotalObservations, exSt1, exCtx, createContextKey,
      EnergyLevel.str, alookup, DEFAULT_ALPHA, DEFAULT_BETA]
  exact ⟨h1,
    rl_source_ne_heuristic_of_one_le exSample exU exSt1 exCtx 25 []
      (by rw [h1])⟩

/-- C2 (amended): the contextualBandits.ts `getSmartRecommendation` takes
the heuristic branch exactly for `N(C) < 2`, returning the heuristic
clamped into the zone arm range with source `heuristic`; the refactored
rl/index.ts `getSmartRecommendation` instead uses the threshold `N(C) < 1`,
so for `1 ≤ N(C) < 2` it takes the model path.  In both, `N(C) ≥ 2` never
takes the heuristic branch. -/
theorem C2_heuristic_thresholds (sample : ℚ → ℚ → ℚ → ℚ) (u : ℚ)
    (st : AppState) (ctx : Context) (h : ℚ) (d : List ℚ) :
    ((getTotalObservations st.model (createContextKey ctx) < 2 →
        (getSmartRecommendation sample u st ctx h d).1 =
          ⟨clampRange
              (getZoneActions
                ((getZoneData st.zones (createContextKey ctx)
                    ctx.energyLevel h).1).zone d) h,
            .heuristic⟩) ∧
      (2 ≤ getTotalObservations st.model (createContextKey ctx) →
        (getSmartRecommendation sample u st ctx h d).1.source ≠
          .heuristic)) ∧
    ((getTotalObservations st.model (createContextKey ctx) < 1 →
        (rlGetSmartRecommendation sample u st ctx h d).1 =
          ⟨clampRange
              (getZoneActions
                ((getZoneData st.zones (createContextKey ctx)
                    ctx.energyLevel h).1).zone d) h,
            .heuristic⟩) ∧
      (1 ≤ getTotalObservations st.model (createContextKey ctx) →
        (rlGetSmartRecommendation sample u st ctx h d).1.source ≠
          .heuristic)) :=
  ⟨⟨heuristic_of_lt_two sample u st ctx h d,
      source_ne_heuristic_of_two_le sample u st ctx h d⟩,
    ⟨rl_heuristic_of_lt_one sample u st ctx h d,
      rl_source_ne_heuristic_of_one_le sample u st ctx h d⟩⟩

/-- Witness for C2 (amended): on the cold state (`N(C) = 0`) the
contextualBandits version returns the clamped heuristic. -/
theorem C2_witness :
    getTotalObservations exSt0.model (createContextKey exCtx) < 2 ∧
      (getSmartRecommendation exSample exU exSt0 exCtx 25 []).1 =
        ⟨clampRange
            (getZoneActions
              ((getZoneData exSt0.zones (createContextKey exCtx)
                  exCtx.energyLevel 25).1).zone []) 25,
          .heuristic⟩ :=
  ⟨by norm_num [getTotalObservations, exSt0, alookup],
    (C2_heuristic_thresholds exSample exU exSt0 exCtx 25 []).1.1
      (by norm_num [getTotalObservations, exSt0, alookup])⟩

/-! ### Claim C7 -/

/-- Counterexample for C7: on a cold start at mid energy the heuristic 12
is returned unchanged because it lies between the zone minimum 10 and
maximum 30, yet 12 is not a member of the arm set `[10, 15, 20, 25, 30]`. -/
theorem C7_counterexample :
    (rlGetSmartRecommendation exSample exU exSt0 exCtx 12 []).1.value = 12 ∧
      ((getZoneData exSt0.zones (createContextKey exCtx) exCtx.energyLevel
          12).1).zone = FocusZone.short ∧
      (12 : ℚ) ∉ getZoneActions FocusZone.short [] := by
  refine ⟨?_, ?_, ?_⟩
  · norm_num +decide [rlGetSmartRecommendation, getZoneData, detectZone,
      getZoneActions, sortQ, insertAsc, dedupFirst, zoneBase,
      ZONE_ACTIONS_short, clampRange, listMin, listMax,
      getTotalObservations, alookup, setEntry, exSt0, exCtx, exSample, exU,
      createContextKey, EnergyLevel.str, min_def, max_def]
  · norm_num +decide [getZoneData, detectZone, exSt0, exCtx,
      createContextKey, EnergyLevel.str, alookup]
  · norm_num +decide [getZoneActions, sortQ, insertAsc, dedupFirst,
      zoneBase, ZONE_ACTIONS_short]

/-- C7 (corrected to range membership): the value returned by either
implementation of `getSmartRecommendation` always lies within
`[min(arms), max(arms)]` of the current zone arm set - but, as the
counterexample shows, it need not be an element of that set. -/
theorem C7_value_in_span (sample : ℚ → ℚ → ℚ → ℚ) (u : ℚ) (st : AppState)
    (ctx : Context) (h : ℚ) (d : List ℚ) :
    (listMin
        (getZoneActions
          ((getZoneData st.zones (createContextKey ctx)
              ctx.energyLevel h).1).zone d) ≤
        (rlGetSmartRecommendation sample u st ctx h d).1.value ∧
      (rlGetSmartRecommendation sample u st ctx h d).1.value ≤
        listMax
          (getZoneActions
            ((getZoneData st.zones (createContextKey ctx)
                ctx.energyLevel h).1).zone d)) ∧
    (listMin
        (getZoneActions
          ((getZoneData st.zones (createContextKey ctx)
              ctx.energyLevel h).1).zone d) ≤
        (getSmartRecommendation sample u st ctx h d).1.value ∧
      (getSmartRecommendation sample u st ctx h d).1.value ≤
        listMax
          (getZoneActions
            ((getZoneData st.zones (createContextKey ctx)
                ctx.energyLevel h).1).zone d)) := by
  constructor
  · simp only [rlGetSmartRecommendation]
    split
    · exact clampRange_bounds _ _ (getZoneActions_ne_nil _ _)
    · exact clampRange_bounds _ _ (getZoneActions_ne_nil _ _)
  · simp only [getSmartRecommendation]
    split
    · exact clampRange_bounds _ _ (getZoneActions_ne_nil _ _)
    · exact clampRange_bounds _ _ (getZoneActions_ne_nil _ _)

/-! ### Claim C6 -/

theorem mem_zoneBase_union (z : FocusZone) (a : ℚ) (h : a ∈ zoneBase z) :
    a ∈ ZONE_ACTIONS_short ++ ZONE_ACTIONS_long := by
  cases z with
  | short => exact List.mem_append_left _ h
  | long => exact List.mem_append_right _ h

/-- Evaluation of the skipped-break fixture: `completeSession` records the
break arm 0 for the break context. -/
theorem exP0_writes_break_arm_zero :
    hasArm (completeSession exAcs 0 exP0 exSt0).model "Coding-break|mid" 0 =
      true := by
  have h1500 : secondsToMinutes 1500 = 25 :=
    secondsToMinutes_eq 1500 25 (by norm_num) (by norm_num)
  have h300 : secondsToMinutes 300 = 5 :=
    secondsToMinutes_eq 300 5 (by norm_num) (by norm_num)
  have hrw : calculateReward false false 25 25 25 .skippedBreak =
      .fin (3 / 5) := by
    norm_num [calculateReward, JSNum.div, JSNum.min, JSNum.max, JSNum.add,
      JSNum.mul, SKIPPED_BREAK_BASE, SKIPPED_BREAK_MULTIPLIER,
      RECOMMENDATION_BONUS, IDEAL_MAX_DURATION]
  norm_num +decide [completeSession, exAcs, exP0, exSt0, h1500, h300, hrw,
    MIN_SESSION_FOR_SAVE, updateModel, getCapacityStats,
    createFocusContext, createBreakContext, createContextKey,
    EnergyLevel.str, hasArm, alookup, setEntry, setArm, successWeightQ,
    JSNum.isNaN, DEFAULT_ALPHA, DEFAULT_BETA]

/-- Counterexample for C6: completing a skipped break writes the arm 0 into
the break context's posterior table, and 0 is neither a base arm nor a
user-supplied dynamic arm (`completeSession` receives none). -/
theorem C6_counterexample :
    hasArm (completeSession exAcs 0 exP0 exSt0).model "Coding-break|mid" 0 =
      true ∧
      (0 : ℚ) ∉ ZONE_ACTIONS_short ++ ZONE_ACTIONS_long ++ BREAK_ACTIONS := by
  refine ⟨exP0_writes_break_arm_zero, ?_⟩
  norm_num +decide [ZONE_ACTIONS_short, ZONE_ACTIONS_long, BREAK_ACTIONS]

/-- C6 (amended): after `completeSession`, every arm key present in the
model tables was present before, or is the session's focused minutes (the
arm `updateModel` is called with for completed and skipped-break sessions),
or - for a completed session - the recorded break minutes or a base-set arm
warmed by spillover, or - for a skipped break - the sentinel break arm 0.
The base set `ARMS_short ∪ ARMS_long ∪ BREAK_ARMS` alone does not bound the
stored arms. -/
theorem C6_arm_provenance (acs : JSNum → ℚ → ℚ → JSNum) (now : ℚ)
    (p : SessionCompletionParams) (st : AppState) (k : String) (a : ℚ)
    (h : hasArm (completeSession acs now p st).model k a = true) :
    hasArm st.model k a = true ∨
      a = secondsToMinutes p.focusedTime ∨
      (p.type = .completed ∧
        (a = secondsToMinutes p.selectedBreakDuration ∨
          a ∈ ZONE_ACTIONS_short ++ ZONE_ACTIONS_long)) ∨
      (p.type = .skippedBreak ∧ a = 0) := by
  simp only [completeSession] at h
  split at h
  · exact Or.inl h
  · cases hp : p.type with
    | completed =>
        simp [hp] at h
        split at h
        · -- spillover branch taken
          split at h
          · -- an arm above the focused minutes exists
            rename_i nextArm heq
            rcases hasArm_updateModel _ _ _ _ _ _ h with h | rfl
            · rcases hasArm_updateModel _ _ _ _ _ _ h with h | rfl
              · rcases hasArm_updateModel _ _ _ _ _ _ h with h | rfl
                · exact Or.inl h
                · exact Or.inr (Or.inl rfl)
              · exact Or.inr (Or.inr (Or.inl ⟨rfl, Or.inl rfl⟩))
            · have hmem := List.mem_of_find?_eq_some heq
              rw [mem_getZoneActions] at hmem
              rw [List.append_nil] at hmem
              exact Or.inr (Or.inr (Or.inl ⟨rfl, Or.inr
                (mem_zoneBase_union _ _ hmem)⟩))
          · -- no arm above: only the focus and break updates
            rcases hasArm_updateModel _ _ _ _ _ _ h with h | rfl
            · rcases hasArm_updateModel _ _ _ _ _ _ h with h | rfl
              · exact Or.inl h
              · exact Or.inr (Or.inl rfl)
            · exact Or.inr (Or.inr (Or.inl ⟨rfl, Or.inl rfl⟩))
        · -- reward below the spillover threshold
          rcases hasArm_updateModel _ _ _ _ _ _ h with h | rfl
          · rcases hasArm_updateModel _ _ _ _ _ _ h with h | rfl
            · exact Or.inl h
            · exact Or.inr (Or.inl rfl)
          · exact Or.inr (Or.inr (Or.inl ⟨rfl, Or.inl rfl⟩))
    | skippedFocus =>
        simp [hp] at h
        exact Or.inl h
    | skippedBreak =>
        simp [hp] at h
        rcases hasArm_updateModel _ _ _ _ _ _ h with h | rfl
        · rcases hasArm_updateModel _ _ _ _ _ _ h with h | rfl
          · exact Or.inl h
          · exact Or.inr (Or.inl rfl)
        · exact Or.inr (Or.inr (Or.inr ⟨rfl, rfl⟩))

/-- Witness for C6 (amended): for the concrete skipped break the new break
arm 0 is accounted for by the skipped-break disjunct. -/
theorem C6_witness :
    hasArm (completeSession exAcs 0 exP0 exSt0).model "Coding-break|mid" 0 =
      true ∧
      (hasArm exSt0.model "Coding-break|mid" 0 = true ∨
        (0 : ℚ) = secondsToMinutes exP0.focusedTime ∨
        (exP0.type = .completed ∧
          ((0 : ℚ) = secondsToMinutes exP0.selectedBreakDuration ∨
            (0 : ℚ) ∈ ZONE_ACTIONS_short ++ ZONE_ACTIONS_long)) ∨
        (exP0.type = .skippedBreak ∧ (0 : ℚ) = 0)) :=
  ⟨exP0_writes_break_arm_zero,
    C6_arm_provenance exAcs 0 exP0 exSt0 "Coding-break|mid" 0
      exP0_writes_break_arm_zero⟩

/-! ### Claim C3 -/

theorem floorStep_le (model : ModelState) (task : String) (x : ℚ)
    (lv : EnergyLevel) : x ≤ floorStep model task x lv := by
  cases h1 : alookup model (createContextKey ⟨task, lv⟩) with
  | none => simp [floorStep, h1]
  | some cm =>
      cases h2 : bestMeanArm cm with
      | none => simp [floorStep, h1, h2]
      | some b =>
          simp only [floorStep, h1, h2]
          split
          · rename_i hb
            exact le_of_lt hb
          · exact le_refl x

theorem floorStep_mono (model : ModelState) (task : String)
    (lv : EnergyLevel) {x y : ℚ} (hxy : x ≤ y) :
    floorStep model task x lv ≤ floorStep model task y lv := by
  cases h1 : alookup model (createContextKey ⟨task, lv⟩) with
  | none => simpa [floorStep, h1] using hxy
  | some cm =>
      cases h2 : bestMeanArm cm with
      | none => simpa [floorStep, h1, h2] using hxy
      | some b =>
          simp only [floorStep, h1, h2]
          split <;> split <;> linarith

theorem floorStep_ge_best (model : ModelState) (task : String) (x : ℚ)
    (lv : EnergyLevel) (cm : ContextModel) (b : ℚ)
    (h1 : alookup model (createContextKey ⟨task, lv⟩) = some cm)
    (h2 : bestMeanArm cm = some b) : b ≤ floorStep model task x lv := by
  simp only [floorStep, h1, h2]
  split
  · exact le_refl b
  · rename_i hnot
    exact le_of_not_lt hnot

theorem floorStep_cases (model : ModelState) (task : String) (x : ℚ)
    (lv : EnergyLevel) :
    floorStep model task x lv = x ∨
      ∃ cm, alookup model (createContextKey ⟨task, lv⟩) = some cm ∧
        bestMeanArm cm = some (floorStep model task x lv) := by
  cases h1 : alookup model (createContextKey ⟨task, lv⟩) with
  | none => left; simp [floorStep, h1]
  | some cm =>
      cases h2 : bestMeanArm cm with
      | none => left; simp [floorStep, h1, h2]
      | some b =>
          simp only [floorStep, h1, h2]
          split
          · exact Or.inr ⟨cm, rfl, h2⟩
          · exact Or.inl rfl


/-- State for the floor counterexample: two observations on `Coding|mid`
(so both implementations take the model path) and a proven 40-minute arm
with high posterior mean under `Coding|low`. -/
def exStLow : AppState :=
  ⟨[("Coding|mid", [(25, ⟨3, 3 / 2⟩)]), ("Coding|low", [(40, ⟨5, 1⟩)])],
    [], [], []⟩

/-- Counterexample for C3: on the same state, the contextualBandits.ts
`getSmartRecommendation` - the implementation `sessionPlanner` invokes -
returns the capacity-adjusted model recommendation 10 unraised, although
the lower-energy context `Coding|low` holds the best-mean arm 40 > 10; the
rl/index.ts implementation raises it (and clamps to the zone maximum 30).
So the claimed raising does not hold of `recommendFocus` as implemented in
contextualBandits.ts. -/
theorem C3_counterexample :
    alookup exStLow.model "Coding|low" = some [(40, ⟨5, 1⟩)] ∧
      bestMeanArm [((40 : ℚ), (⟨5, 1⟩ : ModelParameters))] = some 40 ∧
      2 ≤ getTotalObservations exStLow.model (createContextKey exCtx) ∧
      (getSmartRecommendation exSample exU exStLow exCtx 25 []).1.value = 10 ∧
      (10 : ℚ) < 40 ∧
      (rlGetSmartRecommendation exSample exU exStLow exCtx 25 []).1.value =
        30 := by
  refine ⟨?_, rfl, ?_, ?_, by norm_num, ?_⟩
  · norm_num +decide [exStLow, alookup]
  · norm_num +decide [getTotalObservations, exStLow, exCtx, createContextKey,
      EnergyLevel.str, alookup, DEFAULT_ALPHA, DEFAULT_BETA]
  · norm_num +decide [getSmartRecommendation, getBestAction, getZoneData,
      detectZone, getZoneActions, sortQ, insertAsc, dedupFirst, zoneBase,
      ZONE_ACTIONS_short, clampRange, listMin, listMax, getTotalObservations,
      getCapacityStats, emptyCapacityStats, adjustForCapacity, alookup,
      setEntry, setArm, exStLow, exCtx, exSample, exU, createContextKey,
      EnergyLevel.str, DEFAULT_ALPHA, DEFAULT_BETA,
      EARLY_EXPLORATION_THRESHOLD, Int.floor_zero, min_def, max_def]
  · norm_num +decide [rlGetSmartRecommendation, getBestAction, getZoneData,
      detectZone, getZoneActions, sortQ, insertAsc, dedupFirst, zoneBase,
      ZONE_ACTIONS_short, clampRange, listMin, listMax, getTotalObservations,
      getCapacityStats, emptyCapacityStats, adjustForCapacity,
      crossEnergyFloor, floorStep, lowerLevels, bestMeanArm, alookup,
      setEntry, setArm, exStLow, exCtx, exSample, exU, createContextKey,
      EnergyLevel.str, DEFAULT_ALPHA, DEFAULT_BETA,
      EARLY_EXPLORATION_THRESHOLD, Int.floor_zero, min_def, max_def]

/-- C3 (amended): only the rl/index.ts `getSmartRecommendation` applies the
cross-energy floor.  There, for a context above low energy, between the
capacity adjustment and the final clamp the recommendation is raised
through `crossEnergyFloor`: the result is at least the adjusted value, at
least the best-posterior-mean arm of every lower-energy context of the same
task type that has model state, and is either the adjusted value or one of
those best arms.  The contextualBandits.ts `getSmartRecommendation` has no
floor step: its value is the clamped capacity-adjusted model
recommendation, unchanged by lower-energy model state. -/
theorem C3_floor_only_in_rl :
    (∀ (model : ModelState) (task : String) (e : EnergyLevel) (adjusted : ℚ),
      adjusted ≤ crossEnergyFloor model task e adjusted ∧
      (∀ lv ∈ lowerLevels e, ∀ cm,
        alookup model (createContextKey ⟨task, lv⟩) = some cm →
        ∀ b, bestMeanArm cm = some b →
          b ≤ crossEnergyFloor model task e adjusted) ∧
      (crossEnergyFloor model task e adjusted = adjusted ∨
        ∃ lv ∈ lowerLevels e, ∃ cm,
          alookup model (createContextKey ⟨task, lv⟩) = some cm ∧
          bestMeanArm cm =
            some (crossEnergyFloor model task e adjusted))) ∧
    (∀ (sample : ℚ → ℚ → ℚ → ℚ) (u : ℚ) (st : AppState) (ctx : Context)
      (h : ℚ) (d : List ℚ),
      1 ≤ getTotalObservations st.model (createContextKey ctx) →
      (rlGetSmartRecommendation sample u st ctx h d).1.value =
        clampRange
          (getZoneActions
            ((getZoneData st.zones (createContextKey ctx)
                ctx.energyLevel h).1).zone d)
          (crossEnergyFloor st.model ctx.taskType ctx.energyLevel
            (adjustForCapacity
              (getBestAction sample u
                { st with zones :=
                    (getZoneData st.zones (createContextKey ctx)
                      ctx.energyLevel h).2 }
                ctx
                (getZoneActions
                  ((getZoneData st.zones (createContextKey ctx)
                      ctx.energyLevel h).1).zone d) d).1
              (getCapacityStats st.capacity (createContextKey ctx))
              ctx.energyLevel))) ∧
    (∀ (sample : ℚ → ℚ → ℚ → ℚ) (u : ℚ) (st : AppState) (ctx : Context)
      (h : ℚ) (d : List ℚ),
      2 ≤ getTotalObservations st.model (createContextKey ctx) →
      (getSmartRecommendation sample u st ctx h d).1.value =
        clampRange
          (getZoneActions
            ((getZoneData st.zones (createContextKey ctx)
                ctx.energyLevel h).1).zone d)
          (adjustForCapacity
            (getBestAction sample u
              { st with zones :=
                  (getZoneData st.zones (createContextKey ctx)
                    ctx.energyLevel h).2 }
              ctx
              (getZoneActions
                ((getZoneData st.zones (createContextKey ctx)
                    ctx.energyLevel h).1).zone d) d).1
            (getCapacityStats st.capacity (createContextKey ctx))
            ctx.energyLevel)) := by
  refine ⟨?_, ?_, ?_⟩
  · intro model task e adjusted
    cases e with
    | low =>
        refine ⟨le_refl _, ?_, Or.inl rfl⟩
        intro lv hlv
        simp [lowerLevels] at hlv
    | unset =>
        refine ⟨le_refl _, ?_, Or.inl rfl⟩
        intro lv hlv
        simp [lowerLevels] at hlv
    | mid =>
        simp only [crossEnergyFloor, lowerLevels, List.foldl_cons,
          List.foldl_nil]
        refine ⟨floorStep_le model task adjusted .low, ?_, ?_⟩
        · intro lv hlv cm h1 b h2
          simp only [lowerLevels, List.mem_singleton] at hlv
          subst hlv
          exact floorStep_ge_best model task adjusted .low cm b h1 h2
        · rcases floorStep_cases model task adjusted .low with hc | ⟨cm, h1, h2⟩
          · exact Or.inl hc
          · exact Or.inr ⟨.low, by simp [lowerLevels], cm, h1, h2⟩
    | high =>
        simp only [crossEnergyFloor, lowerLevels, List.foldl_cons,
          List.foldl_nil]
        have hle1 : adjusted ≤ floorStep model task adjusted .mid :=
          floorStep_le model task adjusted .mid
        have hle2 : floorStep model task adjusted .mid ≤
            floorStep model task (floorStep model task adjusted .mid) .low :=
          floorStep_le model task _ .low
        refine ⟨le_trans hle1 hle2, ?_, ?_⟩
        · intro lv hlv cm h1 b h2
          simp only [lowerLevels, List.mem_cons, List.mem_singleton,
            List.not_mem_nil, or_false] at hlv
          rcases hlv with rfl | rfl
          · exact le_trans
              (floorStep_ge_best model task adjusted .mid cm b h1 h2) hle2
          · exact floorStep_ge_best model task _ .low cm b h1 h2
        · rcases floorStep_cases model task
              (floorStep model task adjusted .mid) .low with hc | ⟨cm, h1, h2⟩
          · rw [hc]
            rcases floorStep_cases model task adjusted .mid with
              hc2 | ⟨cm, h1, h2⟩
            · exact Or.inl hc2
            · exact Or.inr ⟨.mid, by simp [lowerLevels], cm, h1, h2⟩
          · exact Or.inr ⟨.low, by simp [lowerLevels], cm, h1, h2⟩
  · intro sample u st ctx h d hge
    simp only [rlGetSmartRecommendation]
    rw [if_neg (not_lt.mpr hge)]
  · intro sample u st ctx h d hge
    simp only [getSmartRecommendation]
    rw [if_neg (not_lt.mpr hge)]

/-- Low-energy model state with a proven 40-minute arm, used to witness the
cross-energy floor. -/
def exModelLow : ModelState := [("Coding|low", [(40, ⟨5, 1⟩)])]

/-- Witness for C3 (amended): the floor raises a mid-energy value to the
proven low-energy arm 40; on the one-observation state the rl pipeline
equation holds; and on the two-observation state the contextualBandits
pipeline equation (with no floor term) holds. -/
theorem C3_witness :
    bestMeanArm [((40 : ℚ), (⟨5, 1⟩ : ModelParameters))] = some 40 ∧
      (40 : ℚ) ≤ crossEnergyFloor exModelLow "Coding" .mid 25 ∧
      1 ≤ getTotalObservations exSt1.model (createContextKey exCtx) ∧
      (rlGetSmartRecommendation exSample exU exSt1 exCtx 25 []).1.value =
        clampRange
          (getZoneActions
            ((getZoneData exSt1.zones (createContextKey exCtx)
                exCtx.energyLevel 25).1).zone [])
          (crossEnergyFloor exSt1.model exCtx.taskType exCtx.energyLevel
            (adjustForCapacity
              (getBestAction exSample exU
                { exSt1 with zones :=
                    (getZoneData exSt1.zones (createContextKey exCtx)
                      exCtx.energyLevel 25).2 }
                exCtx
                (getZoneActions
                  ((getZoneData exSt1.zones (createContextKey exCtx)
                      exCtx.energyLevel 25).1).zone []) []).1
              (getCapacityStats exSt1.capacity (createContextKey exCtx))
              exCtx.energyLevel)) ∧
      2 ≤ getTotalObservations exStLow.model (createContextKey exCtx) ∧
      (getSmartRecommendation exSample exU exStLow exCtx 25 []).1.value =
        clampRange
          (getZoneActions
            ((getZoneData exStLow.zones (createContextKey exCtx)
                exCtx.energyLevel 25).1).zone [])
          (adjustForCapacity
            (getBestAction exSample exU
              { exStLow with zones :=
                  (getZoneData exStLow.zones (createContextKey exCtx)
                    exCtx.energyLevel 25).2 }
              exCtx
              (getZoneActions
                ((getZoneData exStLow.zones (createContextKey exCtx)
                    exCtx.energyLevel 25).1).zone []) []).1
            (getCapacityStats exStLow.capacity (createContextKey exCtx))
            exCtx.energyLevel) := by
  have h1 : alookup exModelLow (createContextKey ⟨"Coding", .low⟩) =
      some [(40, ⟨5, 1⟩)] := by
    norm_num +decide [exModelLow, createContextKey, EnergyLevel.str, alookup]
  have h2 : bestMeanArm [((40 : ℚ), (⟨5, 1⟩ : ModelParameters))] =
      some 40 := rfl
  have hobs : 1 ≤ getTotalObservations exSt1.model (createContextKey exCtx) := by
    norm_num +decide [getTotalObservations, exSt1, exCtx, createContextKey,
      EnergyLevel.str, alookup, DEFAULT_ALPHA, DEFAULT_BETA]
  have hobs2 : 2 ≤
      getTotalObservations exStLow.model (createContextKey exCtx) := by
    norm_num +decide [getTotalObservations, exStLow, exCtx, createContextKey,
      EnergyLevel.str, alookup, DEFAULT_ALPHA, DEFAULT_BETA]
  refine ⟨h2, ?_, hobs, ?_, hobs2, ?_⟩
  · exact (C3_floor_only_in_rl.1 exModelLow "Coding" .mid 25).2.1 .low
      (by simp [lowerLevels]) _ h1 40 h2
  · exact C3_floor_only_in_rl.2.1 exSample exU exSt1 exCtx 25 [] hobs
  · exact C3_floor_only_in_rl.2.2 exSample exU exStLow exCtx 25 [] hobs2
